import Mathlib

/-!
Verification of the semantic-code-highlighter pipeline (src/index.ts).

The program drives an external TextMate grammar engine line by line over an
input text, collects per-line token lists, and renders them as an HTML
fragment in which name-like tokens get a deterministic color derived from a
CRC-8 checksum of the token text.

Strings of the input, token texts and the rendered HTML are modelled as
List Char (JavaScript strings viewed as character sequences); scope labels
and registry metadata stay Lean String values, treated as atomic.  The
external grammar engine (vscode-textmate) is modelled as a parameter: a
state type and a tokenizeLine function, exactly the interface the source
consumes.
-/

namespace Highlighter

/-- A span returned by the engine's tokenizeLine, as consumed in
src/index.ts: startIndex, endIndex and the ordered scope list. -/
structure Span where
  startIndex : Nat
  endIndex : Nat
  scopes : List String
deriving DecidableEq, Repr

/-- The record returned by grammar.tokenizeLine: the spans for the line and
the updated rule stack. -/
structure TokenizeLineResult (σ : Type) where
  tokens : List Span
  ruleStack : σ
deriving Repr

/-- The slice of the vscode-textmate IGrammar interface used by the source:
a single-line tokenizer threading an opaque rule-stack state σ. -/
structure Grammar (σ : Type) where
  tokenizeLine : List Char → σ → TokenizeLineResult σ

/-- Token as defined at src/index.ts line 54: text plus ordered scopes. -/
structure Token where
  text : List Char
  scopes : List String
deriving DecidableEq, Repr

/-- Helper for splitNl: prepend a character to the first segment. -/
def consHead (c : Char) : List (List Char) → List (List Char)
  | [] => [[c]]
  | l :: ls => (c :: l) :: ls

/-- JavaScript code.split for the one-character separator, as in
src/index.ts line 60: the \n-delimited segments, the empty string giving
one empty segment and a trailing newline producing a final empty segment. -/
def splitNl : List Char → List (List Char)
  | [] => [[]]
  | c :: cs => if c = '\n' then [] :: splitNl cs else consHead c (splitNl cs)

/-- JavaScript String.prototype.substring(s, e): both arguments are clamped
to the string length and swapped when out of order, then the slice between
them is returned.  Used at src/index.ts line 68. -/
def jsSubstring (line : List Char) (s e : Nat) : List Char :=
  let s₁ := min s line.length
  let e₁ := min e line.length
  (line.drop (min s₁ e₁)).take (max s₁ e₁ - min s₁ e₁)

/-- Convert one engine span of a line into a Token, as in
src/index.ts lines 67-70. -/
def spanToToken (line : List Char) (sp : Span) : Token :=
  { text := jsSubstring line sp.startIndex sp.endIndex, scopes := sp.scopes }

/-- The loop body of tokenize (src/index.ts lines 63-74): process the lines
in order, threading the rule stack returned by each tokenizeLine call into
the next, and collect one token list per line. -/
def tokenizeLines (g : Grammar σ) : List (List Char) → σ → List (List Token)
  | [], _ => []
  | line :: rest, st =>
    let r := g.tokenizeLine line st
    r.tokens.map (spanToToken line) :: tokenizeLines g rest r.ruleStack

/-- tokenize (src/index.ts lines 56-75): split the code on newlines and run
tokenizeLines from the engine's INITIAL rule stack.  The generator is
modelled as the list of all yielded line token lists. -/
def tokenize (code : List Char) (g : Grammar σ) (INITIAL : σ) : List (List Token) :=
  tokenizeLines g (splitNl code) INITIAL

/-- The fixed 60-entry color table (src/index.ts lines 77-138). -/
def htmlColors : List String :=
  [ "#d78797", "#c47d85", "#b27373", "#d38b83", "#bf8172", "#ac7762",
    "#ca9170", "#b78761", "#a37c53", "#bf975f", "#ab8d53", "#978248",
    "#af9d55", "#9c924c", "#898744", "#9da353", "#8a974e", "#788b48",
    "#88a85c", "#759c58", "#638f54", "#6fac6b", "#5d9f67", "#4c9263",
    "#52af7d", "#41a179", "#319373", "#31b191", "#21a28a", "#129484",
    "#09b1a4", "#00a29c", "#039393", "#13afb5", "#1e9fab", "#2690a0",
    "#3cabc3", "#439bb7", "#468caa", "#61a5ce", "#6395c0", "#6386b1",
    "#829ed4", "#808fc4", "#7c80b3", "#9e96d5", "#9887c3", "#9179b1",
    "#b58fd1", "#ac81be", "#a174ab", "#c689c8", "#ba7cb4", "#ad70a1",
    "#d185bb", "#c27aa7", "#b36e93", "#d685aa", "#c67a96", "#b57084" ]

/-- One shift-register round of CRC-8 with polynomial 0x07. -/
def crc8Round (c : Nat) : Nat :=
  if 128 ≤ c then ((c * 2) ^^^ 7) % 256 else (c * 2) % 256

/-- Absorb one byte into a CRC-8 accumulator: xor it in, then run eight
polynomial-division rounds. -/
def crc8Byte (crc b : Nat) : Nat :=
  (List.range 8).foldl (fun c _ => crc8Round c) ((crc ^^^ b) % 256)

/-- Modelled from the spec: the crc8 function imported from the crc npm
package (not part of this repository) computes the plain CRC-8 checksum
(polynomial 0x07, zero initial value, no reflection) of the byte sequence. -/
def crc8 (bytes : List Nat) : Nat := bytes.foldl crc8Byte 0

/-- UTF-8 encoding of one character, as the crc library applies to string
input via its byte conversion. -/
def utf8Bytes (c : Char) : List Nat :=
  let n := c.toNat
  if n < 128 then [n]
  else if n < 2048 then [192 ||| (n >>> 6), 128 ||| (n &&& 63)]
  else if n < 65536 then
    [224 ||| (n >>> 12), 128 ||| ((n >>> 6) &&& 63), 128 ||| (n &&& 63)]
  else
    [240 ||| (n >>> 18), 128 ||| ((n >>> 12) &&& 63),
      128 ||| ((n >>> 6) &&& 63), 128 ||| (n &&& 63)]

/-- CRC-8 of a text's raw bytes. -/
def crc8Text (text : List Char) : Nat := crc8 (text.flatMap utf8Bytes)

/-- JavaScript String.prototype.startsWith: the first argument's characters
begin with the second argument's characters. -/
def jsStartsWith (s p : String) : Bool :=
  p.data.isPrefixOf s.data

/-- Whether a scope makes a token name-like, as tested at
src/index.ts line 143: it starts with entity.name or with variable. -/
def isNameScope (scope : String) : Bool :=
  jsStartsWith scope "entity.name" || jsStartsWith scope "variable"

/-- styleAttributeForToken (src/index.ts lines 140-153): when some scope is
name-like, produce an inline color style keyed by CRC-8 of the text modulo
the table length; otherwise the empty string.  The findIndex-against--1 test
of the source is the existence test List.any. -/
def styleAttributeForToken (token : Token) : List Char :=
  if token.scopes.any isNameScope then
    let hash := crc8Text token.text
    let colorIndex := hash % htmlColors.length
    let color := htmlColors.getD colorIndex ""
    "style=\"color: ".data ++ color.data ++ "\"".data
  else
    []

/-- The span markup emitted for one token inside the renderer's loop
(src/index.ts lines 159-161). -/
def spanHTML (token : Token) : List Char :=
  "<span ".data ++ styleAttributeForToken token ++ " title=\"".data
    ++ (String.intercalate "," token.scopes).data ++ "\">".data
    ++ token.text ++ "</span>".data

/-- tokenizedFileToHTML (src/index.ts lines 155-167): start from the
opening tags, append every token's span and a br per line, close the tags.
The string accumulation of the source is modelled by the same left fold. -/
def tokenizedFileToHTML (lines : List (List Token)) : List Char :=
  let html := lines.foldl
    (fun html line =>
      (line.foldl (fun html token => html ++ spanHTML token) html) ++ "<br>".data)
    "<pre><code>".data
  html ++ "</code></pre>".data

/-- Grammar registry metadata as consumed from tm-grammars: name, aliases
(the source reads aliases with optional chaining, an absent field behaving
as the empty list) and scopeName. -/
structure GrammarInfo where
  name : String
  aliases : List String
  scopeName : String
deriving DecidableEq, Repr

/-- flagToGrammarInfo (src/index.ts lines 8-13): first registry entry whose
name equals the flag or whose aliases contain it. -/
def flagToGrammarInfo (grammars : List GrammarInfo) (flag : String) : Option GrammarInfo :=
  grammars.find? (fun grammarInfo =>
    flag == grammarInfo.name || grammarInfo.aliases.contains flag)

/-- highlight (src/index.ts lines 169-181): resolve the flag, load the
grammar for its scope name, and render; each failure raises the source's
error message.  The registry's loadGrammar is the external parameter. -/
def highlight (grammars : List GrammarInfo) (loadGrammar : String → Option (Grammar σ))
    (INITIAL : σ) (code : List Char) (flag : String) : Except String (List Char) :=
  match flagToGrammarInfo grammars flag with
  | none => .error ("Failed to find grammar for flag " ++ flag)
  | some grammarInfo =>
    match loadGrammar grammarInfo.scopeName with
    | none => .error ("Failed to load grammar for scope name " ++ grammarInfo.scopeName)
    | some grammar => .ok (tokenizedFileToHTML (tokenize code grammar INITIAL))

/-- Decidable description of the engine precondition used by the coverage
claim: the spans start at the given position, each span ends no earlier than
it starts, abuts the next one, stays within the line, and the last one ends
at the line length. -/
def coversFrom : List Span → Nat → Nat → Bool
  | [], len, pos => pos == len
  | sp :: rest, len, pos =>
    sp.startIndex == pos && Nat.ble pos sp.endIndex && Nat.ble sp.endIndex len
      && coversFrom rest len sp.endIndex

/-- Modelled from the spec: the span markup with no color-style attribute,
used to state that rendering a list with no name-like scope emits none. -/
def spanHTMLUnstyled (token : Token) : List Char :=
  "<span ".data ++ " title=\"".data
    ++ (String.intercalate "," token.scopes).data ++ "\">".data
    ++ token.text ++ "</span>".data

/-- Modelled from the spec: the whole rendering with no color-style
attribute on any span. -/
def tokenizedFileToHTMLUnstyled (lines : List (List Token)) : List Char :=
  "<pre><code>".data
    ++ (lines.map (fun line => (line.map spanHTMLUnstyled).flatten ++ "<br>".data)).flatten
    ++ "</code></pre>".data

/-- Test engine covering every line with a single span. -/
def coveringGrammar : Grammar Unit :=
  { tokenizeLine := fun line _ => { tokens := [⟨0, line.length, ["source"]⟩], ruleStack := () } }

/-- Test engine returning one empty span per line, the shape TextMate-style
engines produce for an empty line. -/
def emptySpanGrammar : Grammar Unit :=
  { tokenizeLine := fun _ _ => { tokens := [⟨0, 0, ["source"]⟩], ruleStack := () } }

/-- Test engine returning no spans at all. -/
def noSpanGrammar : Grammar Unit :=
  { tokenizeLine := fun _ _ => { tokens := [], ruleStack := () } }

/-- Test engine with an observable rule stack: it records the incoming
state in the scope and increments it. -/
def countingGrammar : Grammar Nat :=
  { tokenizeLine := fun line st =>
      { tokens := [⟨0, line.length, [toString st]⟩], ruleStack := st + 1 } }

/-- A one-entry registry used to exercise flag resolution. -/
def tsGrammarInfo : GrammarInfo :=
  { name := "typescript", aliases := ["ts"], scopeName := "source.ts" }

section Lemmas

theorem tokenizeLines_length (g : Grammar σ) :
    ∀ (lines : List (List Char)) (st : σ), (tokenizeLines g lines st).length = lines.length := by
  intro lines
  induction lines with
  | nil => intro st; rfl
  | cons line rest ih =>
    intro st
    simp [tokenizeLines, ih]

theorem consHead_length (c : Char) (L : List (List Char)) (h : L ≠ []) :
    (consHead c L).length = L.length := by
  cases L with
  | nil => exact absurd rfl h
  | cons l ls => rfl

theorem splitNl_ne_nil (cs : List Char) : splitNl cs ≠ [] := by
  induction cs with
  | nil => simp [splitNl]
  | cons c cs ih =>
    by_cases hc : c = '\n'
    · simp [splitNl, hc]
    · simp only [splitNl, if_neg hc]
      cases h : splitNl cs with
      | nil => exact absurd h ih
      | cons l ls => simp [consHead]

theorem splitNl_length (cs : List Char) :
    (splitNl cs).length = cs.count '\n' + 1 := by
  induction cs with
  | nil => rfl
  | cons c cs ih =>
    by_cases hc : c = '\n'
    · simp [splitNl, hc, List.count_cons, ih]
    · rw [splitNl, if_neg hc, consHead_length c _ (splitNl_ne_nil cs), ih,
        List.count_cons]
      simp [hc]

theorem foldl_append_flatten {α : Type} (f : α → List Char) :
    ∀ (l : List α) (acc : List Char),
      l.foldl (fun h x => h ++ f x) acc = acc ++ (l.map f).flatten := by
  intro l
  induction l with
  | nil => intro acc; simp
  | cons x xs ih => intro acc; simp [List.foldl_cons, ih]

theorem tokenizedFileToHTML_eq (lines : List (List Token)) :
    tokenizedFileToHTML lines =
      "<pre><code>".data
        ++ (lines.map (fun line => (line.map spanHTML).flatten ++ "<br>".data)).flatten
        ++ "</code></pre>".data := by
  rw [tokenizedFileToHTML]
  simp only [foldl_append_flatten, List.append_assoc]

theorem jsSubstring_of_covers (line : List Char) (pos e : Nat)
    (h₁ : pos ≤ e) (h₂ : e ≤ line.length) :
    jsSubstring line pos e = (line.drop pos).take (e - pos) := by
  have hpos : pos ≤ line.length := le_trans h₁ h₂
  simp [jsSubstring, Nat.min_eq_left hpos, Nat.min_eq_left h₂,
    Nat.min_eq_left h₁, Nat.max_eq_right h₁]

theorem covers_concat (line : List Char) :
    ∀ (spans : List Span) (pos : Nat),
      coversFrom spans line.length pos = true →
      (spans.map (fun sp => (spanToToken line sp).text)).flatten = line.drop pos := by
  intro spans
  induction spans with
  | nil =>
    intro pos h
    simp only [coversFrom, beq_iff_eq] at h
    simp [h]
  | cons sp rest ih =>
    intro pos h
    simp only [coversFrom, Bool.and_eq_true, beq_iff_eq, Nat.ble_eq] at h
    obtain ⟨⟨⟨hstart, hle⟩, hlen⟩, hrest⟩ := h
    have htext : (spanToToken line sp).text = (line.drop pos).take (sp.endIndex - pos) := by
      rw [spanToToken, hstart]
      exact jsSubstring_of_covers line pos sp.endIndex hle hlen
    have hdrop : (line.drop pos).drop (sp.endIndex - pos) = line.drop sp.endIndex := by
      rw [List.drop_drop, Nat.add_sub_cancel' hle]
    calc (((sp :: rest).map fun sp => (spanToToken line sp).text)).flatten
        = (spanToToken line sp).text
            ++ ((rest.map fun sp => (spanToToken line sp).text)).flatten := by
          simp
      _ = (line.drop pos).take (sp.endIndex - pos) ++ line.drop sp.endIndex := by
          rw [htext, ih sp.endIndex hrest]
      _ = (line.drop pos).take (sp.endIndex - pos)
            ++ (line.drop pos).drop (sp.endIndex - pos) := by rw [hdrop]
      _ = line.drop pos := List.take_append_drop _ _

theorem tokenizeLines_texts (g : Grammar σ)
    (Hcov : ∀ (line : List Char) (st : σ),
      coversFrom (g.tokenizeLine line st).tokens line.length 0 = true) :
    ∀ (lines : List (List Char)) (st : σ),
      (tokenizeLines g lines st).map (fun toks => (toks.map Token.text).flatten) = lines := by
  intro lines
  induction lines with
  | nil => intro st; rfl
  | cons line rest ih =>
    intro st
    simp only [tokenizeLines, List.map_cons, List.map_map, ih]
    have := covers_concat line (g.tokenizeLine line st).tokens 0 (Hcov line st)
    simp only [List.drop_zero] at this
    rw [List.cons_eq_cons]
    exact ⟨this, rfl⟩

theorem tokenizeLines_take (g : Grammar σ) :
    ∀ (k : Nat) (lines₁ lines₂ : List (List Char)) (st : σ),
      lines₁.take k = lines₂.take k →
      (tokenizeLines g lines₁ st).take k = (tokenizeLines g lines₂ st).take k := by
  intro k
  induction k with
  | zero => intro _ _ _ _; simp
  | succ k ih =>
    intro lines₁ lines₂ st h
    cases lines₁ with
    | nil =>
      cases lines₂ with
      | nil => rfl
      | cons l₂ r₂ => simp at h
    | cons l₁ r₁ =>
      cases lines₂ with
      | nil => simp at h
      | cons l₂ r₂ =>
        simp only [List.take_succ_cons, List.cons_eq_cons] at h
        obtain ⟨hl, hr⟩ := h
        subst hl
        simp only [tokenizeLines, List.take_succ_cons, List.cons_eq_cons]
        exact ⟨trivial, ih r₁ r₂ _ hr⟩

theorem find?_first {α : Type} (p : α → Bool) :
    ∀ (l : List α) (a : α), l.find? p = some a →
      p a = true ∧ ∃ l₁ l₂, l = l₁ ++ a :: l₂ ∧ ∀ x ∈ l₁, p x = false := by
  intro l
  induction l with
  | nil => intro a h; simp [List.find?] at h
  | cons x xs ih =>
    intro a h
    by_cases hx : p x = true
    · rw [List.find?_cons_of_pos _ hx, Option.some_inj] at h
      subst h
      exact ⟨hx, [], xs, rfl, by simp⟩
    · rw [List.find?_cons_of_neg _ hx] at h
      obtain ⟨hpa, l₁, l₂, heq, hall⟩ := ih a h
      refine ⟨hpa, x :: l₁, l₂, by rw [heq]; rfl, ?_⟩
      intro y hy
      rcases List.mem_cons.mp hy with hy | hy
      · subst hy; exact Bool.eq_false_iff.mpr hx
      · exact hall y hy

end Lemmas

section Claims

/-- Claim C3: for every input text and every line, under the precondition
that the engine's tokenizeLine returns spans covering the line without gaps
or overlaps, concatenating the text fields of that line's emitted tokens in
emission order yields exactly the original line string. -/
theorem c3_coverage {σ : Type} (code : List Char) (g : Grammar σ) (INITIAL : σ)
    (Hcov : ∀ (line : List Char) (st : σ),
      coversFrom (g.tokenizeLine line st).tokens line.length 0 = true) :
    (tokenize code g INITIAL).map (fun toks => (toks.map Token.text).flatten)
      = splitNl code :=
  tokenizeLines_texts g Hcov (splitNl code) INITIAL

theorem c3_coverage_witness :
    (tokenize "ab\nc".data coveringGrammar ()).map
        (fun toks => (toks.map Token.text).flatten)
      = splitNl "ab\nc".data :=
  c3_coverage "ab\nc".data coveringGrammar ()
    (fun line st => by simp [coveringGrammar, coversFrom, Nat.ble_eq])

/-- Claim C4: tokenize yields exactly as many line-token-lists as there are
newline-delimited segments in the input: a\nb yields 2, a\nb\n yields 3
with the last for an empty line, and the empty string yields 1. -/
theorem c4_line_count {σ : Type} (g : Grammar σ) (INITIAL : σ) :
    (∀ code : List Char,
        (tokenize code g INITIAL).length = (splitNl code).length
        ∧ (splitNl code).length = code.count '\n' + 1)
    ∧ (tokenize "a\nb".data g INITIAL).length = 2
    ∧ (tokenize "a\nb\n".data g INITIAL).length = 3
    ∧ splitNl "a\nb\n".data = [['a'], ['b'], []]
    ∧ (tokenize [] g INITIAL).length = 1 := by
  have hlen : ∀ code : List Char,
      (tokenize code g INITIAL).length = (splitNl code).length :=
    fun code => tokenizeLines_length g (splitNl code) INITIAL
  refine ⟨fun code => ⟨hlen code, splitNl_length code⟩, ?_, ?_, by decide, ?_⟩
  · rw [hlen]; decide
  · rw [hlen]; decide
  · rw [hlen]; decide

/-- Claim C6: tokenization is strictly left-to-right: the rule stack is
seeded to INITIAL before line 0 and replaced after each line by the stack
returned for that line, so two inputs sharing their first k lines get
identical first k token lists. -/
theorem c6_left_to_right {σ : Type} (g : Grammar σ) (INITIAL : σ) :
    (∀ code : List Char, tokenize code g INITIAL = tokenizeLines g (splitNl code) INITIAL)
    ∧ (∀ (line : List Char) (rest : List (List Char)) (st : σ),
        tokenizeLines g (line :: rest) st
          = (g.tokenizeLine line st).tokens.map (spanToToken line)
              :: tokenizeLines g rest (g.tokenizeLine line st).ruleStack)
    ∧ (∀ (code₁ code₂ : List Char) (k : Nat),
        (splitNl code₁).take k = (splitNl code₂).take k →
        (tokenize code₁ g INITIAL).take k = (tokenize code₂ g INITIAL).take k) :=
  ⟨fun _ => rfl, fun _ _ _ => rfl,
    fun _ _ k h => tokenizeLines_take g k _ _ INITIAL h⟩

theorem c6_left_to_right_witness :
    (tokenize "a\nb\nc".data countingGrammar 0).take 2
      = (tokenize "a\nb\nZZ".data countingGrammar 0).take 2 :=
  (c6_left_to_right countingGrammar 0).2.2 "a\nb\nc".data "a\nb\nZZ".data 2 (by decide)

/-- Claim C5: the rendered output is exactly the opening pre and code tags
followed, for each line in order, by one span per token (title attribute
the scopes joined by commas in original order, content the token text
verbatim with no escaping) and one br per line, terminated by the closing
tags. -/
theorem c5_render_format (lines : List (List Token)) :
    tokenizedFileToHTML lines =
      "<pre><code>".data
        ++ (lines.map (fun line =>
              (line.map (fun token =>
                "<span ".data ++ styleAttributeForToken token ++ " title=\"".data
                  ++ (String.intercalate "," token.scopes).data ++ "\">".data
                  ++ token.text ++ "</span>".data)).flatten
              ++ "<br>".data)).flatten
        ++ "</code></pre>".data :=
  tokenizedFileToHTML_eq lines

/-- Claim C1: for every name-like token the emitted color equals the color
table entry at index crc8 of the token text modulo 60; that index is always
in bounds, and the color depends only on the token's text. -/
theorem c1_color_assignment (token : Token)
    (h : token.scopes.any isNameScope = true) :
    styleAttributeForToken token
        = "style=\"color: ".data
            ++ (htmlColors.getD (crc8Text token.text % 60) "").data ++ "\"".data
    ∧ crc8Text token.text % 60 < 60
    ∧ ∀ token₂ : Token, token₂.scopes.any isNameScope = true →
        token₂.text = token.text →
        styleAttributeForToken token₂ = styleAttributeForToken token := by
  have h60 : htmlColors.length = 60 := rfl
  refine ⟨?_, Nat.mod_lt _ (by norm_num), ?_⟩
  · simp [styleAttributeForToken, h, h60]
  · intro token₂ h₂ htext
    simp [styleAttributeForToken, h, h₂, htext]

theorem c1_color_assignment_witness :
    styleAttributeForToken ⟨"x".data, ["variable.other.readwrite"]⟩
      = "style=\"color: ".data
          ++ (htmlColors.getD (crc8Text "x".data % 60) "").data ++ "\"".data :=
  (c1_color_assignment ⟨"x".data, ["variable.other.readwrite"]⟩ (by decide)).1

/-- Claim C2: a token's span carries an inline color style attribute iff
some scope of the token starts with entity.name or with variable; a token
list in which no scope matches renders with no color-style attribute. -/
theorem c2_classification :
    (∀ token : Token,
        styleAttributeForToken token ≠ []
          ↔ ∃ scope ∈ token.scopes,
              jsStartsWith scope "entity.name" = true
                ∨ jsStartsWith scope "variable" = true)
    ∧ ∀ lines : List (List Token),
        (∀ line ∈ lines, ∀ token ∈ line, ∀ scope ∈ token.scopes,
            ¬(jsStartsWith scope "entity.name" = true
                ∨ jsStartsWith scope "variable" = true)) →
        tokenizedFileToHTML lines = tokenizedFileToHTMLUnstyled lines := by
  have hiff : ∀ token : Token, token.scopes.any isNameScope = true
      ↔ ∃ scope ∈ token.scopes,
          jsStartsWith scope "entity.name" = true
            ∨ jsStartsWith scope "variable" = true := by
    intro token
    simp [List.any_eq_true, isNameScope, Bool.or_eq_true]
  constructor
  · intro token
    rw [← hiff]
    by_cases h : token.scopes.any isNameScope = true
    · simp only [h, iff_true]
      simp [styleAttributeForToken, h]
    · simp only [h, iff_false, not_not, Decidable.not_not]
      simp [styleAttributeForToken, h]
  · intro lines hnone
    rw [tokenizedFileToHTML_eq, tokenizedFileToHTMLUnstyled]
    congr 2
    refine congrArg List.flatten ?_
    apply List.map_congr_left
    intro line hline
    congr 1
    refine congrArg List.flatten ?_
    apply List.map_congr_left
    intro token htoken
    have hany : token.scopes.any isNameScope = false := by
      rw [Bool.eq_false_iff]
      intro hcontra
      obtain ⟨scope, hscope, hmatch⟩ := (hiff token).mp hcontra
      exact hnone line hline token htoken scope hscope hmatch
    simp [spanHTML, spanHTMLUnstyled, styleAttributeForToken, hany]

theorem c2_classification_witness :
    tokenizedFileToHTML [[⟨"a".data, ["comment.line"]⟩]]
      = tokenizedFileToHTMLUnstyled [[⟨"a".data, ["comment.line"]⟩]] :=
  c2_classification.2 [[⟨"a".data, ["comment.line"]⟩]] (by decide)

/-- Claim C7: when the flag resolves to no grammar, highlight fails with the
error naming that flag; when the resolved scope name loads no grammar,
highlight fails with the error naming that scope name; in both cases the
result is the error alone, with no rendered output. -/
theorem c7_error_handling {σ : Type} (grammars : List GrammarInfo)
    (loadGrammar : String → Option (Grammar σ)) (INITIAL : σ)
    (code : List Char) (flag : String) :
    (flagToGrammarInfo grammars flag = none →
        highlight grammars loadGrammar INITIAL code flag
          = .error ("Failed to find grammar for flag " ++ flag))
    ∧ ∀ grammarInfo, flagToGrammarInfo grammars flag = some grammarInfo →
        loadGrammar grammarInfo.scopeName = none →
        highlight grammars loadGrammar INITIAL code flag
          = .error ("Failed to load grammar for scope name "
              ++ grammarInfo.scopeName) := by
  constructor
  · intro h
    simp [highlight, h]
  · intro grammarInfo h hload
    simp [highlight, h, hload]

theorem c7_error_handling_witness :
    highlight [] (fun _ => (none : Option (Grammar Unit))) () [] "not-a-real-language"
      = .error ("Failed to find grammar for flag " ++ "not-a-real-language") :=
  (c7_error_handling [] (fun _ => none) () [] "not-a-real-language").1 rfl

/-- Claim C8 counterexample: an engine that emits one empty span for the
empty line makes the empty input render a span, so the claim's
unconditional empty-token-list and exact output do not hold for every
engine. -/
theorem c8_empty_input_counterexample :
    ¬(tokenize [] emptySpanGrammar () = [[]]
      ∧ tokenizedFileToHTML (tokenize [] emptySpanGrammar ())
          = "<pre><code><br></code></pre>".data) := by
  decide

/-- Claim C8 (amended): the empty input always yields exactly one
line-token-list; when the engine returns no spans for the empty line in the
initial state, that list is empty and the render is exactly the bare
pre-code-br fragment. -/
theorem c8_empty_input {σ : Type} (g : Grammar σ) (INITIAL : σ) :
    (tokenize [] g INITIAL).length = 1
    ∧ ((g.tokenizeLine [] INITIAL).tokens = [] →
        tokenize [] g INITIAL = [[]]
        ∧ tokenizedFileToHTML (tokenize [] g INITIAL)
            = "<pre><code><br></code></pre>".data) := by
  constructor
  · rfl
  · intro h
    have ht : tokenize [] g INITIAL = [[]] := by
      simp [tokenize, splitNl, tokenizeLines, h]
    refine ⟨ht, ?_⟩
    rw [ht]
    decide

theorem c8_empty_input_witness :
    tokenizedFileToHTML (tokenize [] noSpanGrammar ())
      = "<pre><code><br></code></pre>".data :=
  ((c8_empty_input noSpanGrammar ()).2 rfl).2

/-- Claim C9: flag resolution is case-sensitive exact matching — a flag
resolves iff some registry entry's name equals it or its aliases contain
it — and the first matching registry entry is the one chosen. -/
theorem c9_flag_resolution (grammars : List GrammarInfo) (flag : String) :
    ((flagToGrammarInfo grammars flag).isSome
        ↔ ∃ grammarInfo ∈ grammars,
            flag = grammarInfo.name ∨ flag ∈ grammarInfo.aliases)
    ∧ (∀ grammarInfo, flagToGrammarInfo grammars flag = some grammarInfo →
        (flag = grammarInfo.name ∨ flag ∈ grammarInfo.aliases)
        ∧ ∃ before after, grammars = before ++ grammarInfo :: after
            ∧ ∀ gj ∈ before, ¬(flag = gj.name ∨ flag ∈ gj.aliases))
    ∧ flagToGrammarInfo [tsGrammarInfo] "TypeScript" = none := by
  refine ⟨?_, ?_, by decide⟩
  · simp [flagToGrammarInfo, List.find?_isSome]
  · intro grammarInfo h
    rw [flagToGrammarInfo] at h
    obtain ⟨hp, l₁, l₂, heq, hall⟩ := find?_first _ grammars grammarInfo h
    refine ⟨by simpa using hp, l₁, l₂, heq, ?_⟩
    intro gj hgj
    have hfalse := hall gj hgj
    rw [Bool.eq_false_iff] at hfalse
    simpa using hfalse

theorem c9_flag_resolution_witness :
    ("ts" = tsGrammarInfo.name ∨ "ts" ∈ tsGrammarInfo.aliases)
    ∧ ∃ before after, [tsGrammarInfo] = before ++ tsGrammarInfo :: after
        ∧ ∀ gj ∈ before, ¬("ts" = gj.name ∨ "ts" ∈ gj.aliases) :=
  (c9_flag_resolution [tsGrammarInfo] "ts").2.1 tsGrammarInfo (by decide)

/-- Claim C10: style computation and rendering are total over every token:
an empty scope list classifies as non-name-like and still renders a span
with an empty title attribute, and a name-like token with empty text still
receives a valid in-bounds color. -/
theorem c10_totality :
    (∀ text : List Char, styleAttributeForToken ⟨text, []⟩ = [])
    ∧ (∀ text : List Char,
        tokenizedFileToHTML [[⟨text, []⟩]]
          = "<pre><code><span  title=\"\">".data ++ text
              ++ "</span><br></code></pre>".data)
    ∧ styleAttributeForToken ⟨[], ["variable"]⟩
        = "style=\"color: ".data
            ++ (htmlColors.getD (crc8Text [] % 60) "").data ++ "\"".data
    ∧ crc8Text [] % 60 < 60 := by
  refine ⟨fun text => rfl, fun text => ?_, by decide, by decide⟩
  rw [tokenizedFileToHTML_eq]
  have hempty : (",".intercalate ([] : List String)).data = [] := by decide
  simp [spanHTML, styleAttributeForToken, hempty, List.append_assoc]

end Claims

end Highlighter
